import Mathlib

/-!
Verification of the kickoff prediction core (`controllers/optimization.py`):
the bounded-depth, role-alternating path enumerator `_find_all_paths` and the
weighted-average prediction `predict`.

Modelling choices (shallow embedding):
* Teams and matches form a cyclic object graph in the source; following the
  arena-style design in the specification (§9), `Match` stores the *names* of
  its home and away teams and the `League` owns all `Team` records keyed by
  name.  Object equality on teams in the source is name equality here.
* Python exceptions (`KeyError` from dict lookups, `ZeroDivisionError` from
  `numpy.average` with weights summing to zero and from `1 / len(path)`) are
  modelled with `Except PredictErr`.
* Python floats are modelled by `ℚ` (exact arithmetic).
* The recursion of the inner `dfs` is compiled with an explicit fuel
  parameter so that every definition is executable by the kernel.  The
  source recursion aborts as soon as `len(path) > depth` and every recursive
  call grows `path` by one match, so its call depth is at most `depth + 2`;
  `find_all_paths` passes `depth.toNat + 2` units of fuel, which is never
  exhausted.  All chain-shape theorems below are proved for *every* fuel
  value, so none of them depends on the particular bound.
-/

namespace Kickoff

/-- Per-team, per-match performance record (`models.py`, `MatchDetails`). -/
structure MatchDetails where
  fouls : Int
  shots : Int
  shots_on_target : Int
  red_cards : Int
  yellow_cards : Int
  half_time_goals : Int
  full_time_goals : Int
  referee : String
deriving DecidableEq

/-- A match between two teams (`models.py`, `Match`).  The `home_team` and
`away_team` fields hold team names (arena keys), and `details` models the
Python dict from team name to `MatchDetails` as an association list. -/
structure Match where
  season : String
  home_team : String
  away_team : String
  order : Nat
  details : List (String × MatchDetails)
  result : Option String
deriving DecidableEq

/-- A team (`models.py`, `Team`): name, chronological match list, seasons.
The source field `matches` is spelled `matches'` because `matches` is a
reserved token in Lean. -/
structure Team where
  name : String
  matches' : List Match
  seasons : List String
deriving DecidableEq

/-- The league graph (`models.py`, `League`): all teams keyed by name. -/
structure League where
  teams : List (String × Team)
deriving DecidableEq

/-- `Match.get_other_team` from `models.py`, on arena keys: if the known team
is the home side return the away side, otherwise return the home side. -/
def Match.get_other_team (m : Match) (known_team : String) : String :=
  if known_team = m.home_team then m.away_team else m.home_team

/-- `League.get_team` (`self._teams[name]`); `none` models `KeyError`. -/
def League.get_team (L : League) (name : String) : Option Team :=
  (L.teams.lookup name)

/-- The match list of the team stored under `name` in the league arena
(empty when no such team exists). -/
def League.matchesOf (L : League) (name : String) : List Match :=
  match L.get_team name with
  | some t => t.matches'
  | none => []

/-- The test `path and path[-1].away_team == away_team` guarding path
acceptance in `dfs` (`optimization.py` line 121). -/
def foundCompletePath (path : List Match) (dst : String) : Bool :=
  match path.getLast? with
  | some m => m.away_team == dst
  | none => false

/-- The inner backtracking search `dfs` of `_find_all_paths`
(`optimization.py` lines 116-139), with the closure state made explicit:
`dst` is the destination team's name, `path` the in-progress chain, `atHome`
the `at_home` flag and `visited` the visited set (the source adds `team.name`
before the loop and removes it afterwards, so from the caller's point of view
`visited` is unchanged; functionally the extended set `team :: visited` is
passed to the recursive calls).  The `continue` branches of the loop
contribute `[]`.  `fuel` only drives the recursion and is never exhausted for
the value supplied by `find_all_paths`. -/
def dfs (L : League) (dst season : String) (depth : Int) :
    Nat → String → List Match → Bool → List String → List (List Match)
  | 0, _, _, _, _ => []
  | fuel + 1, team, path, atHome, visited =>
    if (path.length : Int) > depth then []
    else if foundCompletePath path dst then [path]
    else
      (L.matchesOf team).foldr
        (fun m acc =>
          (if m.season ≠ season ∨ m.get_other_team team ∈ team :: visited ∨
              (atHome = false ∧ m.away_team = m.get_other_team team) ∨
              (atHome = true ∧ m.home_team = m.get_other_team team) then []
           else
             dfs L dst season depth fuel (m.get_other_team team) (path ++ [m])
               (!atHome) (team :: visited)) ++ acc)
        []

/-- `_find_all_paths` (`optimization.py` lines 109-143): run `dfs` from the
source team with an empty path, `at_home = True` and an empty visited set. -/
def find_all_paths (L : League) (home_team away_team : Team) (season : String)
    (depth : Int) : List (List Match) :=
  dfs L away_team.name season depth (depth.toNat + 2) home_team.name [] true []

/-- The two kinds of Python exception `predict` can raise: `KeyError` from a
dict lookup and `ZeroDivisionError` from `1 / len(path)` or from
`numpy.average` when the weights sum to zero. -/
inductive PredictErr where
  | keyError : PredictErr
  | zeroDivisionError : PredictErr
deriving DecidableEq

/-- Both detail-dict lookups performed for a match by `predict` succeed. -/
@[reducible] def detailsOk (m : Match) : Prop :=
  (m.details.lookup m.home_team).isSome = true ∧
    (m.details.lookup m.away_team).isSome = true

/-- `match.details[match.home_team.name].full_time_goals -
match.details[match.away_team.name].full_time_goals` (`optimization.py`
lines 99-101); a missing key is a `KeyError`. -/
def matchGoalDiff (m : Match) : Except PredictErr Int :=
  match m.details.lookup m.home_team, m.details.lookup m.away_team with
  | some hdet, some adet => .ok (hdet.full_time_goals - adet.full_time_goals)
  | _, _ => .error .keyError

/-- The `total_diff` accumulation over one path (`optimization.py` lines
97-102): the sum of the per-match home-side goal differentials, stopping at
the first failing lookup. -/
def pathGoalDiff : List Match → Except PredictErr Int
  | [] => .ok 0
  | m :: ms =>
    match matchGoalDiff m with
    | .error e => .error e
    | .ok d =>
      match pathGoalDiff ms with
      | .error e => .error e
      | .ok rest => .ok (d + rest)

/-- `1 / len(path)` (`optimization.py` line 96); a `ZeroDivisionError` when
the path is empty. -/
def pathWeight (p : List Match) : Except PredictErr ℚ :=
  if p.length = 0 then .error .zeroDivisionError
  else .ok (1 / (p.length : ℚ))

/-- One iteration of the `for path in paths` loop of `predict`: the weight is
computed first, then the goal differential. -/
def pathStat (p : List Match) : Except PredictErr (ℚ × ℚ) :=
  match pathWeight p with
  | .error e => .error e
  | .ok w =>
    match pathGoalDiff p with
    | .error e => .error e
    | .ok d => .ok (w, (d : ℚ))

/-- The whole loop of `predict` building `weights` and `home_goal_diffs`
(paired per path), propagating the first exception. -/
def collectStats : List (List Match) → Except PredictErr (List (ℚ × ℚ))
  | [] => .ok []
  | p :: ps =>
    match pathStat p with
    | .error e => .error e
    | .ok s =>
      match collectStats ps with
      | .error e => .error e
      | .ok rest => .ok (s :: rest)

/-- `numpy.average(a, weights=weights)` for equal-length one-dimensional
inputs: raises `ZeroDivisionError` when the weights sum to zero, otherwise
returns `(Σ aᵢ·wᵢ) / (Σ wᵢ)`. -/
def np_average (a : List ℚ) (weights : List ℚ) : Except PredictErr ℚ :=
  if weights.sum = 0 then .error .zeroDivisionError
  else .ok ((List.zipWith (fun x w => x * w) a weights).sum / weights.sum)

/-- `predict` (`optimization.py` lines 73-106): look up both teams, enumerate
the paths with the hard-coded `PREDICTION_DEPTH = 4`, build the per-path
weights and goal differentials, and return their `numpy.average`. -/
def predict (home away : String) (season : String) (league : League) :
    Except PredictErr ℚ :=
  match league.get_team home with
  | none => .error .keyError
  | some home_team =>
    match league.get_team away with
    | none => .error .keyError
    | some away_team =>
      match collectStats (find_all_paths league home_team away_team season 4) with
      | .error e => .error e
      | .ok stats => np_average (stats.map Prod.snd) (stats.map Prod.fst)

/-- Representation invariant of `Team` in `models.py`: every match in a
team's list has that team as its home or away side.  Stated over the league
arena. -/
@[reducible] def League.WF (L : League) : Prop :=
  ∀ p ∈ L.teams, ∀ m ∈ p.2.matches', m.home_team = p.1 ∨ m.away_team = p.1

/-- Representation invariant of `Match` in `models.py`: the details dict has
entries for both participants.  Stated over the league arena. -/
@[reducible] def League.DetailsWF (L : League) : Prop :=
  ∀ p ∈ L.teams, ∀ m ∈ p.2.matches', detailsOk m

/-- The team reached after travelling along `ms` starting from `t`, hopping
to the other participant at every match. -/
def walkEnd (t : String) (ms : List Match) : String :=
  ms.foldl (fun a m => m.get_other_team a) t

/-- The sequence of teams a chain traverses, starting at `t`: the source,
every intermediate travelling team, and the final team reached. -/
def chainTeams (t : String) : List Match → List String
  | [] => [t]
  | m :: ms => t :: chainTeams (m.get_other_team t) ms

/-- The travelling team's expected role after `n` hops, starting from `b`:
the `at_home` flag inverts at every hop. -/
def flagAfter (b : Bool) : Nat → Bool
  | 0 => b
  | n + 1 => !(flagAfter b n)

/-- The role-alternation property of a chain starting at team `t` with flag
`b`: each match hosts the departing team on its home side when the flag is
`true` and on its away side when it is `false`, the flag inverting at every
hop. -/
def rolesAlternateB (t : String) (b : Bool) : List Match → Bool
  | [] => true
  | m :: ms =>
    (if b then m.home_team == t else m.away_team == t) &&
      rolesAlternateB (m.get_other_team t) (!b) ms

/-- Spec-side per-chain weight: `1 / (number of edges in the chain)`. -/
def specWeight (p : List Match) : ℚ := 1 / (p.length : ℚ)

/-- Spec-side per-match signal: home-side full-time goals minus away-side
full-time goals, using the match's own home/away assignment. -/
def specMatchDiff (m : Match) : Int :=
  ((m.details.lookup m.home_team).map MatchDetails.full_time_goals).getD 0
    - ((m.details.lookup m.away_team).map MatchDetails.full_time_goals).getD 0

/-- Spec-side per-chain signal: the total goal differential of the chain. -/
def specSignal (p : List Match) : Int := (p.map specMatchDiff).sum

/-- Spec-side aggregate: the weight-normalised weighted mean
`Σ (wᵢ·sᵢ) / Σ wᵢ` of the per-chain signals. -/
def specWeightedMean (paths : List (List Match)) : ℚ :=
  (paths.map fun p => specWeight p * (specSignal p : ℚ)).sum
    / (paths.map specWeight).sum

/-! ### Concrete leagues used by the witnesses

`leagueAB` is the concrete scenario of spec §8: season `"2010-11"`, a single
match A (home) 3 – 1 B (away).  `league5` has five teams and is used to
exhibit two sibling chains that reuse the same intermediate team. -/

/-- Details with a given full-time goal count (other statistics zero). -/
def mkDetails (ht ft : Int) : MatchDetails := ⟨0, 0, 0, 0, 0, ht, ft, "R"⟩

/-- The match A (home) 3 – 1 B (away) in season `"2010-11"`. -/
def matchAB : Match :=
  ⟨"2010-11", "A", "B", 1, [("A", mkDetails 2 3), ("B", mkDetails 0 1)], some "A"⟩

/-- Team A of the two-team league. -/
def teamA : Team := ⟨"A", [matchAB], ["2010-11"]⟩

/-- Team B of the two-team league. -/
def teamB : Team := ⟨"B", [matchAB], ["2010-11"]⟩

/-- The two-team league of spec §8's concrete scenario. -/
def leagueAB : League := ⟨[("A", teamA), ("B", teamB)]⟩

/-- Match 1 of the five-team league: A (home) vs C (away). -/
def match1 : Match :=
  ⟨"2010-11", "A", "C", 1, [("A", mkDetails 0 0), ("C", mkDetails 0 0)], none⟩

/-- Match 2 of the five-team league: D (home) vs C (away). -/
def match2 : Match :=
  ⟨"2010-11", "D", "C", 2, [("D", mkDetails 0 0), ("C", mkDetails 0 0)], none⟩

/-- Match 3 of the five-team league: D (home) vs B (away). -/
def match3 : Match :=
  ⟨"2010-11", "D", "B", 3, [("D", mkDetails 0 0), ("B", mkDetails 0 0)], none⟩

/-- Match 4 of the five-team league: E (home) vs C (away). -/
def match4 : Match :=
  ⟨"2010-11", "E", "C", 4, [("E", mkDetails 0 0), ("C", mkDetails 0 0)], none⟩

/-- Match 5 of the five-team league: E (home) vs B (away). -/
def match5 : Match :=
  ⟨"2010-11", "E", "B", 5, [("E", mkDetails 0 0), ("B", mkDetails 0 0)], none⟩

/-- Team A of the five-team league. -/
def teamA5 : Team := ⟨"A", [match1], ["2010-11"]⟩

/-- Team B of the five-team league. -/
def teamB5 : Team := ⟨"B", [match3, match5], ["2010-11"]⟩

/-- Team C of the five-team league. -/
def teamC5 : Team := ⟨"C", [match1, match2, match4], ["2010-11"]⟩

/-- Team D of the five-team league. -/
def teamD5 : Team := ⟨"D", [match2, match3], ["2010-11"]⟩

/-- Team E of the five-team league. -/
def teamE5 : Team := ⟨"E", [match4, match5], ["2010-11"]⟩

/-- The five-team league: A reaches B through C and then either D or E. -/
def league5 : League :=
  ⟨[("A", teamA5), ("B", teamB5), ("C", teamC5), ("D", teamD5), ("E", teamE5)]⟩

/-! ### Basic unfolding and inversion lemmas for the search -/

/-- With no fuel the search returns nothing (never reached from
`find_all_paths`). -/
theorem dfs_zero (L : League) (dst season : String) (depth : Int) (team : String)
    (path : List Match) (atHome : Bool) (visited : List String) :
    dfs L dst season depth 0 team path atHome visited = [] := rfl

/-- One unfolding step of `dfs`. -/
theorem dfs_succ (L : League) (dst season : String) (depth : Int) (fuel : Nat)
    (team : String) (path : List Match) (atHome : Bool) (visited : List String) :
    dfs L dst season depth (fuel + 1) team path atHome visited =
      if (path.length : Int) > depth then []
      else if foundCompletePath path dst then [path]
      else
        (L.matchesOf team).foldr
          (fun m acc =>
            (if m.season ≠ season ∨ m.get_other_team team ∈ team :: visited ∨
                (atHome = false ∧ m.away_team = m.get_other_team team) ∨
                (atHome = true ∧ m.home_team = m.get_other_team team) then []
             else
               dfs L dst season depth fuel (m.get_other_team team) (path ++ [m])
                 (!atHome) (team :: visited)) ++ acc)
          [] := rfl

/-- Membership in a fold that appends per-element result lists. -/
theorem mem_foldr_append {α β : Type} (h : β → List α) (l : List β) (c : α) :
    c ∈ l.foldr (fun m acc => h m ++ acc) [] ↔ ∃ m ∈ l, c ∈ h m := by
  induction l with
  | nil => simp
  | cons x xs ih => simp [List.mem_append, ih]

/-- A fold appending only empty per-element lists is empty. -/
theorem foldr_append_eq_nil {α β : Type} (h : β → List α) (l : List β)
    (hall : ∀ m ∈ l, h m = []) :
    l.foldr (fun m acc => h m ++ acc) [] = [] := by
  induction l with
  | nil => rfl
  | cons x xs ih =>
    simp [hall x (List.mem_cons_self x xs),
      ih fun m hm => hall m (List.mem_cons_of_mem x hm)]

/-- The empty path is never a complete path. -/
theorem foundCompletePath_nil (dst : String) : foundCompletePath [] dst = false := rfl

/-- Appending one match makes the acceptance test look at that match. -/
theorem foundCompletePath_append (path : List Match) (m : Match) (dst : String) :
    foundCompletePath (path ++ [m]) dst = (m.away_team == dst) := by
  unfold foundCompletePath
  rw [List.getLast?_concat]

/-- A complete path is non-empty and its last match's away side is the
destination. -/
theorem foundCompletePath_eq_true {path : List Match} {dst : String}
    (h : foundCompletePath path dst = true) :
    ∃ last, path.getLast? = some last ∧ last.away_team = dst := by
  cases hl : path.getLast? with
  | none => simp [foundCompletePath, hl] at h
  | some m =>
    simp only [foundCompletePath, hl] at h
    exact ⟨m, rfl, by simpa using h⟩

/-- A rejected path's last match (if any) does not have the destination as
its away side. -/
theorem foundCompletePath_false_getLast {path : List Match} {dst : String}
    (h : foundCompletePath path dst = false) {last : Match}
    (hl : path.getLast? = some last) : last.away_team ≠ dst := by
  simp only [foundCompletePath, hl] at h
  simpa using h

/-- Inverting one successful step of the search: a chain in the output either
was accepted right here, or belongs to the output of a recursive call on an
eligible match. -/
theorem mem_dfs_succ {L : League} {dst season : String} {depth : Int} {fuel : Nat}
    {team : String} {path : List Match} {atHome : Bool} {visited : List String}
    {c : List Match}
    (hc : c ∈ dfs L dst season depth (fuel + 1) team path atHome visited) :
    ¬((path.length : Int) > depth) ∧
      ((foundCompletePath path dst = true ∧ c = path) ∨
        (foundCompletePath path dst = false ∧
          ∃ m ∈ L.matchesOf team,
            m.season = season ∧ m.get_other_team team ∉ team :: visited ∧
            ¬(atHome = false ∧ m.away_team = m.get_other_team team) ∧
            ¬(atHome = true ∧ m.home_team = m.get_other_team team) ∧
            c ∈ dfs L dst season depth fuel (m.get_other_team team) (path ++ [m])
              (!atHome) (team :: visited))) := by
  rw [dfs_succ] at hc
  by_cases hg : (path.length : Int) > depth
  · rw [if_pos hg] at hc
    exact absurd hc (List.not_mem_nil c)
  · rw [if_neg hg] at hc
    refine ⟨hg, ?_⟩
    cases hfc : foundCompletePath path dst with
    | true =>
      rw [hfc] at hc
      simp only [if_true] at hc
      exact Or.inl ⟨rfl, List.mem_singleton.mp hc⟩
    | false =>
      rw [hfc] at hc
      simp only [Bool.false_eq_true, if_false] at hc
      obtain ⟨m, hm, hmem⟩ := (mem_foldr_append _ _ _).mp hc
      by_cases hs : m.season ≠ season ∨ m.get_other_team team ∈ team :: visited ∨
          (atHome = false ∧ m.away_team = m.get_other_team team) ∨
          (atHome = true ∧ m.home_team = m.get_other_team team)
      · rw [if_pos hs] at hmem
        exact absurd hmem (List.not_mem_nil c)
      · rw [if_neg hs] at hmem
        refine Or.inr ⟨rfl, m, hm, ?_, ?_, ?_, ?_, hmem⟩
        · exact not_ne_iff.mp fun a => hs (Or.inl a)
        · exact fun a => hs (Or.inr (Or.inl a))
        · exact fun a => hs (Or.inr (Or.inr (Or.inl a)))
        · exact fun a => hs (Or.inr (Or.inr (Or.inr a)))

/-! ### Walks, traversed teams, and role alternation -/

/-- Walking an empty chain stays at the start. -/
theorem walkEnd_nil (t : String) : walkEnd t [] = t := rfl

/-- Walking a chain extended by one match hops once more. -/
theorem walkEnd_append (t : String) (ms : List Match) (m : Match) :
    walkEnd t (ms ++ [m]) = m.get_other_team (walkEnd t ms) := by
  simp [walkEnd, List.foldl_append]

/-- Walking a cons chain. -/
theorem walkEnd_cons (t : String) (x : Match) (xs : List Match) :
    walkEnd t (x :: xs) = walkEnd (x.get_other_team t) xs := rfl

/-- The traversed teams of an extended chain gain the team reached last. -/
theorem chainTeams_append (t : String) (ms : List Match) (m : Match) :
    chainTeams t (ms ++ [m]) =
      chainTeams t ms ++ [m.get_other_team (walkEnd t ms)] := by
  induction ms generalizing t with
  | nil => rfl
  | cons x xs ih => simp [chainTeams, walkEnd_cons, ih]

/-- The start team is among the traversed teams. -/
theorem mem_chainTeams_self (t : String) (ms : List Match) :
    t ∈ chainTeams t ms := by
  cases ms <;> simp [chainTeams]

/-- Alternation of the flag: one more hop negates it. -/
theorem flagAfter_not (b : Bool) (n : Nat) :
    flagAfter (!b) n = !(flagAfter b n) := by
  induction n with
  | zero => rfl
  | succ n ih => simp [flagAfter, ih]

/-- Starting from `true`, the flag after `n` hops tells whether `n` is even. -/
theorem flagAfter_true_spec (n : Nat) : flagAfter true n = decide (n % 2 = 0) := by
  induction n with
  | zero => rfl
  | succ n ih =>
    rcases Nat.mod_two_eq_zero_or_one n with h | h
    · have h2 : (n + 1) % 2 = 1 := by omega
      simp [flagAfter, ih, h, h2]
    · have h2 : (n + 1) % 2 = 0 := by omega
      simp [flagAfter, ih, h, h2]

/-- A chain reached with the flag down has odd length. -/
theorem odd_of_flagAfter_false {n : Nat} (h : flagAfter true n = false) :
    n % 2 = 1 := by
  rw [flagAfter_true_spec] at h
  have := of_decide_eq_false h
  omega

/-- Extending an alternating chain by one match at the reached team keeps it
alternating exactly when the new match hosts that team in the expected
role. -/
theorem rolesAlternateB_append (t : String) (b : Bool) (ms : List Match) (m : Match) :
    rolesAlternateB t b (ms ++ [m]) =
      (rolesAlternateB t b ms &&
        (if flagAfter b ms.length then m.home_team == walkEnd t ms
         else m.away_team == walkEnd t ms)) := by
  induction ms generalizing t b with
  | nil => simp [rolesAlternateB, flagAfter, walkEnd_nil]
  | cons x xs ih =>
    simp only [List.cons_append, rolesAlternateB, List.length_cons, walkEnd_cons,
      flagAfter, List.append_eq]
    rw [ih (x.get_other_team t) (!b), flagAfter_not, Bool.and_assoc]

/-- The first match of a chain alternating from `t` with the flag up hosts
`t` at home. -/
theorem rolesAlternateB_head {t : String} {m : Match} {ms : List Match}
    (h : rolesAlternateB t true (m :: ms) = true) : m.home_team = t := by
  simp only [rolesAlternateB, if_true, Bool.and_eq_true, beq_iff_eq] at h
  exact h.1

/-! ### League well-formedness plumbing -/

/-- A successful association-list lookup exhibits a member pair. -/
theorem mem_of_lookup_eq_some {β : Type} {l : List (String × β)} {k : String}
    {b : β} (h : l.lookup k = some b) : (k, b) ∈ l := by
  induction l with
  | nil => cases h
  | cons x xs ih =>
    cases x with
    | mk k' v =>
      by_cases hk : k = k'
      · subst hk
        simp only [List.lookup, beq_self_eq_true, Option.some.injEq] at h
        subst h
        exact List.mem_cons_self _ _
      · have hbeq : (k == k') = false := beq_false_of_ne hk
        simp only [List.lookup, hbeq] at h
        exact List.mem_cons_of_mem _ (ih h)

/-- Every match stored under a name in the league arena comes from that
team's match list. -/
theorem matchesOf_subset {L : League} {n : String} {m : Match}
    (hm : m ∈ L.matchesOf n) : ∃ t, (n, t) ∈ L.teams ∧ m ∈ t.matches' := by
  unfold League.matchesOf League.get_team at hm
  cases hl : L.teams.lookup n with
  | none => rw [hl] at hm; cases hm
  | some t =>
    rw [hl] at hm
    exact ⟨t, mem_of_lookup_eq_some hl, hm⟩

/-- The `Team` representation invariant, read through the arena: every match
listed for `n` has `n` as one of its sides. -/
theorem wf_matchesOf {L : League} (hW : L.WF) {n : String} {m : Match}
    (hm : m ∈ L.matchesOf n) : m.home_team = n ∨ m.away_team = n := by
  obtain ⟨t, ht, hmt⟩ := matchesOf_subset hm
  exact hW (n, t) ht m hmt

/-- The `Match` details invariant, read through the arena. -/
theorem detailsWF_matchesOf {L : League} (hW : L.DetailsWF) {n : String}
    {m : Match} (hm : m ∈ L.matchesOf n) : detailsOk m := by
  obtain ⟨t, ht, hmt⟩ := matchesOf_subset hm
  exact hW (n, t) ht m hmt

/-! ### Invariant lemmas for the search -/

/-- Soundness of the search, for any fuel: every emitted chain respects the
depth bound, ends with the destination on its away side, traverses no team
twice, stays in the requested season, and draws all its matches from the
league arena.  The hypotheses are the search invariants tying the seed
`path` to the source `src`; they hold trivially for the initial call. -/
theorem dfs_good (L : League) (dst season src : String) (depth : Int) :
    ∀ fuel team path atHome visited,
      walkEnd src path = team →
      (chainTeams src path).Nodup →
      (∀ x ∈ chainTeams src path, x = team ∨ x ∈ visited) →
      team ∉ visited →
      (∀ m ∈ path, m.season = season) →
      (∀ m ∈ path, ∃ n, m ∈ L.matchesOf n) →
      ∀ c ∈ dfs L dst season depth fuel team path atHome visited,
        ((c.length : Int) ≤ depth) ∧
          (∃ last, c.getLast? = some last ∧ last.away_team = dst) ∧
          (chainTeams src c).Nodup ∧ (∀ m ∈ c, m.season = season) ∧
          (∀ m ∈ c, ∃ n, m ∈ L.matchesOf n) := by
  intro fuel
  induction fuel with
  | zero =>
    intro team path atHome visited _ _ _ _ _ _ c hc
    rw [dfs_zero] at hc
    exact absurd hc (List.not_mem_nil c)
  | succ fuel ih =>
    intro team path atHome visited hend hnd hcov hnv hsea hprov c hc
    obtain ⟨hg, hrest⟩ := mem_dfs_succ hc
    rcases hrest with ⟨hfc, rfl⟩ | ⟨hfc, m, hm, hseason, hnvis, hr1, hr2, hmem⟩
    · exact ⟨by omega, foundCompletePath_eq_true hfc, hnd, hsea, hprov⟩
    · have hother : m.get_other_team team ∉ chainTeams src path := by
        intro hx
        rcases hcov _ hx with h | h
        · exact hnvis (by rw [h]; exact List.mem_cons_self _ _)
        · exact hnvis (List.mem_cons_of_mem _ h)
      refine ih (m.get_other_team team) (path ++ [m]) (!atHome) (team :: visited)
        ?_ ?_ ?_ ?_ ?_ ?_ c hmem
      · rw [walkEnd_append, hend]
      · rw [chainTeams_append, hend]
        refine List.Nodup.append hnd (List.nodup_singleton _) ?_
        intro x hx hx'
        rw [List.mem_singleton] at hx'
        exact hother (hx' ▸ hx)
      · rw [chainTeams_append, hend]
        intro x hx
        rcases List.mem_append.mp hx with h | h
        · rcases hcov x h with h' | h'
          · exact Or.inr (by rw [h']; exact List.mem_cons_self _ _)
          · exact Or.inr (List.mem_cons_of_mem _ h')
        · exact Or.inl (List.mem_singleton.mp h)
      · exact hnvis
      · intro m' hm'
        rcases List.mem_append.mp hm' with h | h
        · exact hsea m' h
        · rw [List.mem_singleton.mp h]
          exact hseason
      · intro m' hm'
        rcases List.mem_append.mp hm' with h | h
        · exact hprov m' h
        · exact ⟨team, (List.mem_singleton.mp h) ▸ hm⟩

/-- Soundness of `find_all_paths`: instantiation of `dfs_good` at the
initial call. -/
theorem find_all_paths_good (L : League) (ht aw : Team) (season : String)
    (depth : Int) :
    ∀ c ∈ find_all_paths L ht aw season depth,
      ((c.length : Int) ≤ depth) ∧
        (∃ last, c.getLast? = some last ∧ last.away_team = aw.name) ∧
        (chainTeams ht.name c).Nodup ∧ (∀ m ∈ c, m.season = season) ∧
        (∀ m ∈ c, ∃ n, m ∈ L.matchesOf n) := by
  intro c hc
  exact dfs_good L aw.name season ht.name depth (depth.toNat + 2) ht.name [] true []
    rfl (by simp [chainTeams]) (by simp [chainTeams]) (by simp) (by simp) (by simp)
    c hc

/-- Role alternation and odd length of every emitted chain, for any fuel,
given the `Team` representation invariant.  The hypotheses are the search
invariants: the seed path alternates from the source and ends at the current
team, the flag mirrors the parity of the path length, with the flag down the
last match's away side is the current team, and with the flag up the seed
path is not already accepted. -/
theorem dfs_alternate (L : League)
    (hW : ∀ n, ∀ m ∈ L.matchesOf n, m.home_team = n ∨ m.away_team = n)
    (dst season src : String) (depth : Int) :
    ∀ fuel team path atHome visited,
      rolesAlternateB src true path = true →
      walkEnd src path = team →
      atHome = flagAfter true path.length →
      (atHome = false → ∃ last, path.getLast? = some last ∧ last.away_team = team) →
      (atHome = true → foundCompletePath path dst = false) →
      ∀ c ∈ dfs L dst season depth fuel team path atHome visited,
        c.length % 2 = 1 ∧ rolesAlternateB src true c = true := by
  intro fuel
  induction fuel with
  | zero =>
    intro team path atHome visited _ _ _ _ _ c hc
    rw [dfs_zero] at hc
    exact absurd hc (List.not_mem_nil c)
  | succ fuel ih =>
    intro team path atHome visited hroles hend hpar hB2 hB3 c hc
    obtain ⟨hg, hrest⟩ := mem_dfs_succ hc
    rcases hrest with ⟨hfc, rfl⟩ | ⟨hfc, m, hm, hseason, hnvis, hr1, hr2, hmem⟩
    · have hfalse : atHome = false := by
        cases hat : atHome
        · rfl
        · rw [hB3 hat] at hfc
          cases hfc
      rw [hfalse] at hpar
      exact ⟨odd_of_flagAfter_false hpar.symm, hroles⟩
    · cases hat : atHome with
      | true =>
        have hhome : team = m.home_team ∧ m.get_other_team team = m.away_team := by
          by_cases hh : team = m.home_team
          · exact ⟨hh, by simp [Match.get_other_team, if_pos hh]⟩
          · exact absurd ⟨hat, by simp [Match.get_other_team, if_neg hh]⟩ hr2
        refine ih (m.get_other_team team) (path ++ [m]) (!atHome) (team :: visited)
          ?_ ?_ ?_ ?_ ?_ c hmem
        · rw [rolesAlternateB_append, hend, ← hpar, hat]
          simp [hroles, hhome.1]
        · rw [walkEnd_append, hend]
        · rw [List.length_append, List.length_singleton, flagAfter]
          rw [← hpar]
        · intro _
          refine ⟨m, ?_, hhome.2.symm⟩
          rw [List.getLast?_concat]
        · intro hcontra
          rw [hat] at hcontra
          cases hcontra
      | false =>
        have haway : m.away_team = team ∧ m.get_other_team team = m.home_team := by
          by_cases hh : team = m.home_team
          · exact absurd ⟨hat, by simp [Match.get_other_team, if_pos hh]⟩ hr1
          · rcases hW team m hm with h | h
            · exact absurd h.symm hh
            · exact ⟨h, by simp [Match.get_other_team, if_neg hh]⟩
        have hteam_ne : team ≠ dst := by
          obtain ⟨last, hl, hla⟩ := hB2 hat
          intro h
          exact foundCompletePath_false_getLast hfc hl (hla.trans h)
        refine ih (m.get_other_team team) (path ++ [m]) (!atHome) (team :: visited)
          ?_ ?_ ?_ ?_ ?_ c hmem
        · rw [rolesAlternateB_append, hend, ← hpar, hat]
          simp [hroles, haway.1]
        · rw [walkEnd_append, hend]
        · rw [List.length_append, List.length_singleton, flagAfter]
          rw [← hpar]
        · intro hcontra
          rw [hat] at hcontra
          cases hcontra
        · intro _
          rw [foundCompletePath_append, beq_eq_false_iff_ne]
          rw [haway.1]
          exact hteam_ne

/-- Role alternation and odd length for `find_all_paths`. -/
theorem find_all_paths_alternate (L : League) (hW : L.WF) (ht aw : Team)
    (season : String) (depth : Int) :
    ∀ c ∈ find_all_paths L ht aw season depth,
      c.length % 2 = 1 ∧ rolesAlternateB ht.name true c = true := by
  intro c hc
  exact dfs_alternate L (fun n m hm => wf_matchesOf hW hm) aw.name season ht.name
    depth (depth.toNat + 2) ht.name [] true [] rfl rfl rfl
    (by intro h; cases h) (fun _ => rfl) c hc

/-- When the destination coincides with the source the search finds nothing:
once the source is in the visited set, no eligible match can have it as its
away side, so the acceptance test never fires. -/
theorem dfs_self_empty (L : League)
    (hW : ∀ n, ∀ m ∈ L.matchesOf n, m.home_team = n ∨ m.away_team = n)
    (src season : String) (depth : Int) :
    ∀ fuel team path atHome visited,
      team ∉ visited →
      (src ∈ visited ∨ (team = src ∧ atHome = true)) →
      foundCompletePath path src = false →
      dfs L src season depth fuel team path atHome visited = [] := by
  intro fuel
  induction fuel with
  | zero =>
    intro team path atHome visited _ _ _
    rfl
  | succ fuel ih =>
    intro team path atHome visited hnv hsv hfc
    rw [dfs_succ]
    by_cases hg : (path.length : Int) > depth
    · rw [if_pos hg]
    · rw [if_neg hg, hfc, if_neg Bool.false_ne_true]
      apply foldr_append_eq_nil
      intro m hm
      by_cases hs : m.season ≠ season ∨ m.get_other_team team ∈ team :: visited ∨
          (atHome = false ∧ m.away_team = m.get_other_team team) ∨
          (atHome = true ∧ m.home_team = m.get_other_team team)
      · rw [if_pos hs]
      · rw [if_neg hs]
        have h2 : m.get_other_team team ∉ team :: visited :=
          fun a => hs (Or.inr (Or.inl a))
        have h4 : ¬(atHome = true ∧ m.home_team = m.get_other_team team) :=
          fun a => hs (Or.inr (Or.inr (Or.inr a)))
        have hsrcmem : src ∈ team :: visited := by
          rcases hsv with hv | ⟨hts, _⟩
          · exact List.mem_cons_of_mem _ hv
          · rw [hts]
            exact List.mem_cons_self _ _
        apply ih
        · exact h2
        · exact Or.inl hsrcmem
        · rw [foundCompletePath_append, beq_eq_false_iff_ne]
          rcases hW team m hm with hh | ha
          · have hoth : m.get_other_team team = m.away_team := by
              simp [Match.get_other_team, if_pos hh.symm]
            intro heq
            apply h2
            rw [hoth, heq]
            exact hsrcmem
          · intro heq
            have hts : team = src := by rw [← ha, heq]
            by_cases hh : team = m.home_team
            · exact h2 (by
                have : m.get_other_team team = team := by
                  simp [Match.get_other_team, if_pos hh, ha]
                rw [this]
                exact List.mem_cons_self _ _)
            · rcases hsv with hv | ⟨_, hat⟩
              · exact hnv (by rw [hts]; exact hv)
              · exact h4 ⟨hat, by simp [Match.get_other_team, if_neg hh]⟩

/-- `find_all_paths` from a team to itself is empty (given the `Team`
representation invariant). -/
theorem find_all_paths_self_empty (L : League) (hW : L.WF) (t : Team)
    (season : String) (depth : Int) :
    find_all_paths L t t season depth = [] := by
  exact dfs_self_empty L (fun n m hm => wf_matchesOf hW hm) t.name season depth
    (depth.toNat + 2) t.name [] true [] (by simp) (Or.inr ⟨rfl, rfl⟩) rfl

/-- With a non-positive depth bound, any call whose seed path is already
non-empty immediately aborts on the depth guard. -/
theorem dfs_nonpos_aux (L : League) (dst season : String) (depth : Int)
    (hdep : depth ≤ 0) (fuel : Nat) (team : String) (path : List Match)
    (atHome : Bool) (visited : List String) (hpath : path ≠ []) :
    dfs L dst season depth fuel team path atHome visited = [] := by
  cases fuel with
  | zero => rfl
  | succ fuel =>
    rw [dfs_succ, if_pos]
    have : 0 < path.length := List.length_pos.mpr hpath
    omega

/-- Both sides of every match of an alternating chain are among the chain's
traversed teams. -/
theorem sides_mem_chainTeams {t : String} {b : Bool} {ms : List Match}
    (hr : rolesAlternateB t b ms = true) :
    ∀ m ∈ ms, m.home_team ∈ chainTeams t ms ∧ m.away_team ∈ chainTeams t ms := by
  induction ms generalizing t b with
  | nil =>
    intro m hm
    cases hm
  | cons x xs ih =>
    simp only [rolesAlternateB, Bool.and_eq_true] at hr
    obtain ⟨hx, hrest⟩ := hr
    intro m hm
    rcases List.mem_cons.mp hm with rfl | hm'
    · cases b with
      | true =>
        have hhome : m.home_team = t := by simpa using hx
        refine ⟨by rw [hhome]; exact List.mem_cons_self _ _, ?_⟩
        have hoth : m.get_other_team t = m.away_team := by
          simp [Match.get_other_team, if_pos hhome.symm]
        refine List.mem_cons_of_mem _ ?_
        rw [← hoth]
        exact mem_chainTeams_self _ _
      | false =>
        have haway : m.away_team = t := by simpa using hx
        refine ⟨?_, by rw [haway]; exact List.mem_cons_self _ _⟩
        by_cases hh : t = m.home_team
        · rw [← hh]
          exact List.mem_cons_self _ _
        · have hoth : m.get_other_team t = m.home_team := by
            simp [Match.get_other_team, if_neg hh]
          refine List.mem_cons_of_mem _ ?_
          rw [← hoth]
          exact mem_chainTeams_self _ _
    · have := ih hrest m hm'
      exact ⟨List.mem_cons_of_mem _ this.1, List.mem_cons_of_mem _ this.2⟩

/-- An alternating chain whose traversed teams are distinct contains no
match twice. -/
theorem chain_nodup_of_alternating {t : String} {b : Bool} {ms : List Match}
    (hr : rolesAlternateB t b ms = true) (hn : (chainTeams t ms).Nodup) :
    ms.Nodup := by
  induction ms generalizing t b with
  | nil => exact List.nodup_nil
  | cons x xs ih =>
    simp only [rolesAlternateB, Bool.and_eq_true] at hr
    obtain ⟨hx, hrest⟩ := hr
    simp only [chainTeams, List.nodup_cons] at hn
    refine List.nodup_cons.mpr ⟨?_, ih hrest hn.2⟩
    intro hmem
    have hsides := sides_mem_chainTeams hrest x hmem
    cases b with
    | true =>
      have hhome : x.home_team = t := by simpa using hx
      exact hn.1 (hhome ▸ hsides.1)
    | false =>
      have haway : x.away_team = t := by simpa using hx
      exact hn.1 (haway ▸ hsides.2)

/-- With a non-positive depth bound the whole search is empty: for negative
depth the guard fires at once, and for depth zero every candidate first hop
already exceeds the bound. -/
theorem dfs_nonpos_empty (L : League) (dst season : String) (depth : Int)
    (hdep : depth ≤ 0) (fuel : Nat) (team : String) (atHome : Bool)
    (visited : List String) :
    dfs L dst season depth fuel team [] atHome visited = [] := by
  cases fuel with
  | zero => rfl
  | succ fuel =>
    by_cases hg : ((List.length ([] : List Match)) : Int) > depth
    · rw [dfs_succ, if_pos hg]
    · rw [dfs_succ, if_neg hg, foundCompletePath_nil, if_neg Bool.false_ne_true]
      apply foldr_append_eq_nil
      intro m hm
      by_cases hs : m.season ≠ season ∨ m.get_other_team team ∈ team :: visited ∨
          (atHome = false ∧ m.away_team = m.get_other_team team) ∨
          (atHome = true ∧ m.home_team = m.get_other_team team)
      · rw [if_pos hs]
      · rw [if_neg hs]
        exact dfs_nonpos_aux L dst season depth hdep fuel _ _ _ _ (by simp)

/-! ### The fuel parameter is semantically inert

The Python recursion has no fuel; the following lemmas show the fuel of the
embedding never matters: above the bound forced by the depth guard the
result is constant, and `find_all_paths`'s choice `depth.toNat + 2` lies in
the stable regime. -/

/-- Pointwise-equal per-element lists give equal appending folds. -/
theorem foldr_append_congr {α β : Type} (h1 h2 : β → List α) (l : List β)
    (h : ∀ m ∈ l, h1 m = h2 m) :
    l.foldr (fun m acc => h1 m ++ acc) [] =
      l.foldr (fun m acc => h2 m ++ acc) [] := by
  induction l with
  | nil => rfl
  | cons x xs ih =>
    simp only [List.foldr_cons, h x (List.mem_cons_self _ _),
      ih fun m hm => h m (List.mem_cons_of_mem _ hm)]

/-- Above the recursion depth forced by the length guard, one more unit of
fuel changes nothing. -/
theorem dfs_fuel_irrelevant (L : League) (dst season : String) (depth : Int) :
    ∀ fuel team path atHome visited,
      (depth + 1 - (path.length : Int)).toNat < fuel →
      dfs L dst season depth (fuel + 1) team path atHome visited =
        dfs L dst season depth fuel team path atHome visited := by
  intro fuel
  induction fuel with
  | zero =>
    intro team path atHome visited h
    omega
  | succ fuel ih =>
    intro team path atHome visited hfuel
    rw [dfs_succ, dfs_succ]
    by_cases hg : (path.length : Int) > depth
    · rw [if_pos hg, if_pos hg]
    · rw [if_neg hg, if_neg hg]
      cases hfc : foundCompletePath path dst with
      | true => simp
      | false =>
        simp only [Bool.false_eq_true, if_false]
        apply foldr_append_congr
        intro m hm
        by_cases hs : m.season ≠ season ∨ m.get_other_team team ∈ team :: visited ∨
            (atHome = false ∧ m.away_team = m.get_other_team team) ∨
            (atHome = true ∧ m.home_team = m.get_other_team team)
        · rw [if_pos hs, if_pos hs]
        · rw [if_neg hs, if_neg hs]
          apply ih
          rw [List.length_append, List.length_singleton]
          omega

/-- All fuel values from `depth.toNat + 2` on give the same search result on
an empty seed path: the fuel of `find_all_paths` is semantically inert. -/
theorem dfs_fuel_stable (L : League) (dst season : String) (depth : Int)
    (team : String) (atHome : Bool) (visited : List String) :
    ∀ fuel, depth.toNat + 2 ≤ fuel →
      dfs L dst season depth fuel team [] atHome visited =
        dfs L dst season depth (depth.toNat + 2) team [] atHome visited := by
  intro fuel
  induction fuel with
  | zero => omega
  | succ fuel ih =>
    intro hle
    by_cases heq : depth.toNat + 2 = fuel + 1
    · rw [heq]
    · have hlt : depth.toNat + 2 ≤ fuel := by omega
      rw [dfs_fuel_irrelevant L dst season depth fuel team [] atHome visited
        (by simp only [List.length_nil]; omega)]
      exact ih hlt

/-! ### The prediction computation -/

/-- When both detail lookups succeed, `matchGoalDiff` returns the spec-side
per-match signal. -/
theorem matchGoalDiff_ok {m : Match} (h : detailsOk m) :
    matchGoalDiff m = .ok (specMatchDiff m) := by
  obtain ⟨h1, h2⟩ := h
  obtain ⟨hd, hhd⟩ := Option.isSome_iff_exists.mp h1
  obtain ⟨ad, had⟩ := Option.isSome_iff_exists.mp h2
  simp [matchGoalDiff, specMatchDiff, hhd, had]

/-- When every detail lookup of a path succeeds, `pathGoalDiff` returns the
spec-side chain signal. -/
theorem pathGoalDiff_ok {p : List Match} (h : ∀ m ∈ p, detailsOk m) :
    pathGoalDiff p = .ok (specSignal p) := by
  induction p with
  | nil => rfl
  | cons m ms ih =>
    rw [pathGoalDiff, matchGoalDiff_ok (h m (List.mem_cons_self _ _)),
      ih fun m' hm' => h m' (List.mem_cons_of_mem _ hm')]
    simp [specSignal]

/-- For a non-empty path with successful lookups, the per-path statistics are
the spec-side weight and signal. -/
theorem pathStat_ok {p : List Match} (hne : p ≠ []) (h : ∀ m ∈ p, detailsOk m) :
    pathStat p = .ok (specWeight p, (specSignal p : ℚ)) := by
  have hw : pathWeight p = .ok (specWeight p) := by
    rw [pathWeight, if_neg fun h0 => hne (List.length_eq_zero.mp h0)]
    rfl
  simp [pathStat, hw, pathGoalDiff_ok h]

/-- The statistics loop of `predict` succeeds on non-empty paths with
successful lookups and produces the spec-side weight/signal pairs. -/
theorem collectStats_ok {paths : List (List Match)}
    (h : ∀ p ∈ paths, p ≠ [] ∧ ∀ m ∈ p, detailsOk m) :
    collectStats paths =
      .ok (paths.map fun p => (specWeight p, (specSignal p : ℚ))) := by
  induction paths with
  | nil => rfl
  | cons p ps ih =>
    obtain ⟨hne, hdet⟩ := h p (List.mem_cons_self _ _)
    simp [collectStats, pathStat_ok hne hdet,
      ih fun q hq => h q (List.mem_cons_of_mem _ hq)]

/-- Zipping two maps over the same list is a single map. -/
theorem zipWith_map_same {α β γ δ : Type} (k : β → γ → δ) (f : α → β)
    (g : α → γ) (l : List α) :
    List.zipWith k (l.map f) (l.map g) = l.map fun x => k (f x) (g x) := by
  induction l with
  | nil => rfl
  | cons x xs ih => simp [ih]

/-- Commuting the factors of the spec-side weighted terms. -/
theorem map_mul_comm_spec (paths : List (List Match)) :
    (paths.map fun p => (specSignal p : ℚ) * specWeight p) =
      paths.map fun p => specWeight p * (specSignal p : ℚ) := by
  induction paths with
  | nil => rfl
  | cons x xs ih => simp [ih, mul_comm]

/-- On the spec-side statistics of a non-empty chain collection,
`numpy.average` computes the weight-normalised weighted mean: the weights
are strictly positive, so their sum is non-zero. -/
theorem np_average_spec (paths : List (List Match)) (hne : paths ≠ [])
    (hlen : ∀ p ∈ paths, p ≠ []) :
    np_average (paths.map fun p => (specSignal p : ℚ)) (paths.map specWeight) =
      .ok (specWeightedMean paths) := by
  have hpos : ∀ w ∈ paths.map specWeight, 0 < w := by
    intro w hw
    obtain ⟨p, hp, rfl⟩ := List.mem_map.mp hw
    have hlp : (0 : ℚ) < (p.length : ℚ) := by
      exact_mod_cast List.length_pos.mpr (hlen p hp)
    exact one_div_pos.mpr hlp
  have hsum : 0 < (paths.map specWeight).sum :=
    List.sum_pos _ hpos (by simpa using hne)
  rw [np_average, if_neg hsum.ne', zipWith_map_same]
  unfold specWeightedMean
  rw [map_mul_comm_spec]

/-- Unfolding `predict` once both team lookups succeed. -/
theorem predict_unfold {L : League} (home away season : String) {ht aw : Team}
    (hht : L.get_team home = some ht) (haw : L.get_team away = some aw) :
    predict home away season L =
      match collectStats (find_all_paths L ht aw season 4) with
      | .error e => .error e
      | .ok stats => np_average (stats.map Prod.snd) (stats.map Prod.fst) := by
  unfold predict
  rw [hht, haw]

/-- With no chains at all, `predict` hits the zero-weight-sum branch of
`numpy.average` and fails with a `ZeroDivisionError`. -/
theorem predict_error_of_no_paths {L : League} {home away season : String}
    {ht aw : Team} (hht : L.get_team home = some ht)
    (haw : L.get_team away = some aw)
    (hempty : find_all_paths L ht aw season 4 = []) :
    predict home away season L = .error .zeroDivisionError := by
  rw [predict_unfold home away season hht haw, hempty]
  rfl

/-- When the statistics loop succeeds, `predict` is `numpy.average` of the
collected signals and weights. -/
theorem predict_of_collect {L : League} (home away season : String)
    {ht aw : Team} (hht : L.get_team home = some ht)
    (haw : L.get_team away = some aw) {stats : List (ℚ × ℚ)}
    (hstats : collectStats (find_all_paths L ht aw season 4) = .ok stats) :
    predict home away season L =
      np_average (stats.map Prod.snd) (stats.map Prod.fst) := by
  rw [predict_unfold home away season hht haw, hstats]

/-! ### The claims -/

/-- C1: if the path enumeration for (source, destination, season, depth 4)
yields zero chains, `predict` fails with an error reported to the caller —
the `ZeroDivisionError` raised by `numpy.average` on zero-sum weights, the
code's realisation of the spec's `NoPath` — and in particular never returns
a number such as `0.0`. -/
theorem C1_predict_errors_when_no_paths (L : League) (home away season : String)
    (ht aw : Team) (hht : L.get_team home = some ht)
    (haw : L.get_team away = some aw)
    (hempty : find_all_paths L ht aw season 4 = []) :
    predict home away season L = .error .zeroDivisionError ∧
      ∀ q : ℚ, predict home away season L ≠ .ok q := by
  have h := predict_error_of_no_paths hht haw hempty
  refine ⟨h, ?_⟩
  intro q hq
  rw [h] at hq
  cases hq

/-- Witness for C1: in `leagueAB` no chain from A to B exists in season
`"2009-10"`, and `predict` fails with a `ZeroDivisionError` there. -/
theorem C1_witness :
    find_all_paths leagueAB teamA teamB "2009-10" 4 = [] ∧
      predict "A" "B" "2009-10" leagueAB = .error .zeroDivisionError :=
  ⟨by decide,
    (C1_predict_errors_when_no_paths leagueAB "A" "B" "2009-10" teamA teamB rfl rfl
      (by decide)).1⟩

/-- C2: for every non-empty chain collection, `predict` returns exactly the
weight-normalised weighted mean `Σ (wᵢ·sᵢ) / Σ wᵢ` where `wᵢ = 1 / |chain|`
and `sᵢ` is the chain's summed home-minus-away full-time goal differential,
taken per match with that match's own home/away sides.  The league must
satisfy the `Match` details representation invariant so that the dict
lookups succeed. -/
theorem C2_predict_weighted_mean (L : League) (hd : L.DetailsWF)
    (home away season : String) (ht aw : Team)
    (hht : L.get_team home = some ht) (haw : L.get_team away = some aw)
    (hne : find_all_paths L ht aw season 4 ≠ []) :
    predict home away season L =
      .ok (specWeightedMean (find_all_paths L ht aw season 4)) := by
  have hcond : ∀ p ∈ find_all_paths L ht aw season 4,
      p ≠ [] ∧ ∀ m ∈ p, detailsOk m := by
    intro p hp
    obtain ⟨-, ⟨last, hl, -⟩, -, -, hprov⟩ := find_all_paths_good L ht aw season 4 p hp
    refine ⟨?_, ?_⟩
    · intro h0
      rw [h0] at hl
      cases hl
    · intro m hm
      obtain ⟨n, hn⟩ := hprov m hm
      exact detailsWF_matchesOf hd hn
  rw [predict_of_collect home away season hht haw (collectStats_ok hcond),
    List.map_map, List.map_map]
  have h1 : (Prod.snd ∘ fun p : List Match => (specWeight p, (specSignal p : ℚ)))
      = fun p : List Match => (specSignal p : ℚ) := rfl
  have h2 : (Prod.fst ∘ fun p : List Match => (specWeight p, (specSignal p : ℚ)))
      = specWeight := rfl
  rw [h1, h2]
  exact np_average_spec _ hne fun p hp => (hcond p hp).1

/-- Witness for C2: the concrete scenario of spec §8 — a single chain of one
match A 3–1 B gives weight 1, signal +2 and prediction +2. -/
theorem C2_witness :
    predict "A" "B" "2010-11" leagueAB =
      .ok (specWeightedMean (find_all_paths leagueAB teamA teamB "2010-11" 4)) ∧
      specWeightedMean (find_all_paths leagueAB teamA teamB "2010-11" 4) = 2 :=
  ⟨C2_predict_weighted_mean leagueAB (by decide) "A" "B" "2010-11" teamA teamB
      rfl rfl (by decide),
    by
      have hp : find_all_paths leagueAB teamA teamB "2010-11" 4 = [[matchAB]] := by
        decide
      have hs : specSignal [matchAB] = 2 := by decide
      rw [hp]
      simp [specWeightedMean, specWeight, hs]⟩

/-- C3 counterexample: supplying depth 0 to the enumerator does not fail —
`_find_all_paths` returns normally with the empty list.  The code contains
no `InvalidDepth` error and performs no depth validation at all. -/
theorem C3_counterexample :
    find_all_paths leagueAB teamA teamB "2010-11" 0 = [] := by decide

/-- C3 (amended): for every depth ≤ 0 the enumerator returns normally with
the empty list — a negative depth trips the length guard immediately and at
depth 0 every candidate first hop already exceeds the bound; no
`InvalidDepth` error exists in the code. -/
theorem C3_depth_nonpos_returns_empty (L : League) (ht aw : Team)
    (season : String) (depth : Int) (hdep : depth ≤ 0) :
    find_all_paths L ht aw season depth = [] :=
  dfs_nonpos_empty L aw.name season depth hdep (depth.toNat + 2) ht.name true []

/-- Witness for the amended C3 at depth `-1`. -/
theorem C3_witness :
    (-1 : Int) ≤ 0 ∧ find_all_paths leagueAB teamA teamB "2010-11" (-1) = [] :=
  ⟨by decide,
    C3_depth_nonpos_returns_empty leagueAB teamA teamB "2010-11" (-1) (by decide)⟩

/-- C4: every returned chain contains an odd number of matches — the
`at_home` flag starts `true` and inverts on every hop, and a chain closes
only on an edge whose away side is the destination, so even-length chains
never close.  Requires the `Team` representation invariant of the league. -/
theorem C4_chains_odd_length (L : League) (hW : L.WF) (ht aw : Team)
    (season : String) (depth : Int) :
    ∀ c ∈ find_all_paths L ht aw season depth, c.length % 2 = 1 :=
  fun c hc => (find_all_paths_alternate L hW ht aw season depth c hc).1

/-- Witness for C4: the one-match chain of `leagueAB` has odd length. -/
theorem C4_witness : [matchAB].length % 2 = 1 :=
  C4_chains_odd_length leagueAB (by decide) teamA teamB "2010-11" 4 [matchAB]
    (by decide)

/-- C5: no returned chain has more than the configured maximum number of
edges, and with `predict`'s hard-coded `PREDICTION_DEPTH = 4` every chain
contributing to a prediction has at most 4 matches. -/
theorem C5_depth_bound (L : League) (ht aw : Team) (season : String)
    (depth : Int) :
    (∀ c ∈ find_all_paths L ht aw season depth, (c.length : Int) ≤ depth) ∧
      (∀ c ∈ find_all_paths L ht aw season 4, c.length ≤ 4) := by
  constructor
  · intro c hc
    exact (find_all_paths_good L ht aw season depth c hc).1
  · intro c hc
    have h := (find_all_paths_good L ht aw season 4 c hc).1
    omega

/-- Witness for C5: the one-match chain respects the depth-4 bound. -/
theorem C5_witness : (([matchAB].length : Int)) ≤ 4 :=
  (C5_depth_bound leagueAB teamA teamB "2010-11" 4).1 [matchAB] (by decide)

/-- C6: in every returned chain the travelling team's home/away role
strictly alternates starting with home for the source: the source team is
the home side of the first match, and the departing team of each edge
(`get_other_team` of the previous edge's departing team) occupies the home
role on odd edges and the away role on even edges.  Requires the `Team`
representation invariant. -/
theorem C6_roles_alternate (L : League) (hW : L.WF) (ht aw : Team)
    (season : String) (depth : Int) :
    ∀ c ∈ find_all_paths L ht aw season depth,
      rolesAlternateB ht.name true c = true ∧
        ∀ m, c.head? = some m → m.home_team = ht.name := by
  intro c hc
  have h := (find_all_paths_alternate L hW ht aw season depth c hc).2
  refine ⟨h, ?_⟩
  intro m hm
  cases c with
  | nil => cases hm
  | cons x xs =>
    obtain rfl : x = m := by simpa using hm
    exact rolesAlternateB_head h

/-- Witness for C6: the one-match chain alternates from A, and its first
match hosts A at home. -/
theorem C6_witness :
    rolesAlternateB "A" true [matchAB] = true ∧ matchAB.home_team = "A" := by
  have h := C6_roles_alternate leagueAB (by decide) teamA teamB "2010-11" 4
    [matchAB] (by decide)
  exact ⟨h.1, h.2 matchAB rfl⟩

/-- C7: every returned chain is non-empty and its final match's away side is
the destination team. -/
theorem C7_chains_end_at_destination (L : League) (ht aw : Team)
    (season : String) (depth : Int) :
    ∀ c ∈ find_all_paths L ht aw season depth,
      c ≠ [] ∧ ∃ last, c.getLast? = some last ∧ last.away_team = aw.name := by
  intro c hc
  obtain ⟨-, ⟨last, hl, hla⟩, -, -, -⟩ := find_all_paths_good L ht aw season depth c hc
  refine ⟨?_, last, hl, hla⟩
  intro h0
  rw [h0] at hl
  cases hl

/-- Witness for C7: the one-match chain is non-empty and ends with B away. -/
theorem C7_witness :
    [matchAB] ≠ [] ∧ [matchAB].getLast? = some matchAB ∧
      matchAB.away_team = teamB.name := by
  have h := C7_chains_end_at_destination leagueAB teamA teamB "2010-11" 4
    [matchAB] (by decide)
  exact ⟨h.1, rfl, by decide⟩

/-- C8: no team repeats within a returned chain — the traversed team
sequence (source, intermediate travelling teams, final team) is duplicate
free — and in particular no match occurs twice in one chain.  The visited
set is scoped to the active path, so sibling chains may still reuse a team;
the witness exhibits two returned chains both traversing team C.  Requires
the `Team` representation invariant (for the match-level part). -/
theorem C8_no_repeated_team (L : League) (hW : L.WF) (ht aw : Team)
    (season : String) (depth : Int) :
    ∀ c ∈ find_all_paths L ht aw season depth,
      (chainTeams ht.name c).Nodup ∧ c.Nodup := by
  intro c hc
  have hnd := (find_all_paths_good L ht aw season depth c hc).2.2.1
  have hr := (find_all_paths_alternate L hW ht aw season depth c hc).2
  exact ⟨hnd, chain_nodup_of_alternating hr hnd⟩

/-- Witness for C8: a returned three-match chain of `league5` traverses
A, C, D, B without repetition, while the sibling chain reuses team C. -/
theorem C8_witness :
    ((chainTeams "A" [match1, match2, match3]).Nodup ∧
        [match1, match2, match3].Nodup) ∧
      find_all_paths league5 teamA5 teamB5 "2010-11" 4 =
        [[match1, match2, match3], [match1, match4, match5]] ∧
      "C" ∈ chainTeams "A" [match1, match2, match3] ∧
      "C" ∈ chainTeams "A" [match1, match4, match5] :=
  ⟨C8_no_repeated_team league5 (by decide) teamA5 teamB5 "2010-11" 4
      [match1, match2, match3] (by decide),
    by decide, by decide, by decide⟩

/-- C9: every match in every returned chain carries exactly the requested
season string (no normalisation). -/
theorem C9_chains_in_season (L : League) (ht aw : Team) (season : String)
    (depth : Int) :
    ∀ c ∈ find_all_paths L ht aw season depth, ∀ m ∈ c, m.season = season :=
  fun c hc => (find_all_paths_good L ht aw season depth c hc).2.2.2.1

/-- Witness for C9: the one returned match is in season `"2010-11"`. -/
theorem C9_witness : matchAB.season = "2010-11" :=
  C9_chains_in_season leagueAB teamA teamB "2010-11" 4 [matchAB] (by decide)
    matchAB (by decide)

/-- C10: when source and destination coincide the enumeration is empty (the
source is marked visited before any edge is explored and a chain is only
accepted on an edge reaching an unvisited team), so `predict` of a team
against itself never yields a numeric prediction.  Requires the `Team`
representation invariant. -/
theorem C10_self_prediction_empty (L : League) (hW : L.WF) (t : Team)
    (season : String) (depth : Int) :
    find_all_paths L t t season depth = [] ∧
      ∀ name, L.get_team name = some t →
        ∀ q : ℚ, predict name name season L ≠ .ok q := by
  refine ⟨find_all_paths_self_empty L hW t season depth, ?_⟩
  intro name hname q hq
  rw [predict_error_of_no_paths hname hname
    (find_all_paths_self_empty L hW t season 4)] at hq
  cases hq

/-- Witness for C10: A-to-A enumeration in `leagueAB` is empty and the
self-prediction is not the number 0. -/
theorem C10_witness :
    find_all_paths leagueAB teamA teamA "2010-11" 3 = [] ∧
      predict "A" "A" "2010-11" leagueAB ≠ .ok 0 := by
  have h := C10_self_prediction_empty leagueAB (by decide) teamA "2010-11" 3
  exact ⟨h.1, h.2 "A" rfl 0⟩

end Kickoff
